import Mathlib

/-!
# HiRes-V2: verification of the high-resolution URL resolution engine

Shallow embedding of the content-script engine of the HiRes extension
(`src/content.js` and its sibling generations `src/unnamed/part_002`,
`src/unnamed/part_003`, `src/unnamed/part_004`) together with proofs of the
spec's testable properties.

JavaScript strings are modelled as Lean `String` (`List Char` internally);
`String.prototype.includes` / `startsWith` / `toLowerCase` are modelled
character-exactly; JS `Array.prototype.sort`, which is stable, is modelled by
a stable insertion sort with the source comparator (for a consistent
comparator, stability and sortedness determine the output uniquely, so any
stable sort is the same function); regexes used by the
scanner are modelled by dedicated character-level matchers that reproduce the
leftmost/greedy semantics of the concrete patterns in the source.
-/

set_option maxRecDepth 16384

namespace HiRes

/-! ## Basic string utilities (models of JS string builtins) -/

/-- `listIsPre p l`: `p` is a prefix of `l` (character-exact). -/
def listIsPre : List Char → List Char → Bool
  | [], _ => true
  | _ :: _, [] => false
  | a :: p, b :: l => a = b && listIsPre p l

/-- `listContainsSeq pat l`: `pat` occurs as a contiguous subsequence of `l`.
Model of `String.prototype.includes`. -/
def listContainsSeq (pat : List Char) : List Char → Bool
  | [] => listIsPre pat []
  | c :: l => listIsPre pat (c :: l) || listContainsSeq pat l

/-- JS `s.includes(pat)`. -/
def strContains (s pat : String) : Bool := listContainsSeq pat.data s.data

/-- JS `s.startsWith(pat)`. -/
def jsStartsWith (s pat : String) : Bool := listIsPre pat.data s.data

/-- JS `s.toLowerCase()` (ASCII-adequate model). -/
def lowerStr (s : String) : String := ⟨s.data.map Char.toLower⟩

/-- JS `s.split(sep)` for a single-character separator. -/
def splitOnChar (sep : Char) : List Char → List (List Char)
  | [] => [[]]
  | c :: rest =>
      let r := splitOnChar sep rest
      if c = sep then [] :: r
      else
        match r with
        | h :: t => (c :: h) :: t
        | [] => [[c]]

/-- The apostrophe character (U+0027). -/
def apos : Char := Char.ofNat 39

/-- ASCII hex digit (the `[0-9a-fA-F]` class). -/
def isHexDig (c : Char) : Bool := c.isDigit || ('a' ≤ c.toLower && c.toLower ≤ 'f')

/-- Numeric value of a hex digit. -/
def hexVal (c : Char) : Nat :=
  if c.isDigit then c.toNat - '0'.toNat else c.toLower.toNat - 'a'.toNat + 10

/-- `parseInt` on a run of decimal digits. -/
def natOfDigits (ds : List Char) : Nat :=
  ds.foldl (fun n c => n * 10 + (c.toNat - '0'.toNat)) 0

/-! ## Escape decoding (`decodeGoogleString`, content.js 475-492, and the
inline 4-step decode of `getBestUrl` content.js 330-336 / part_004 304-310) -/

/-- Global replace of `\uXXXX` by the character with that code
(`String.fromCharCode`): model of `.replace(/\\u([0-9a-fA-F]{4})/g, …)`.
Surrogate code units fall back to `Char.ofNat`'s default character; the
candidates at issue are ASCII. -/
def replUnicode : List Char → List Char
  | '\\' :: 'u' :: a :: b :: c :: d :: rest =>
      if isHexDig a && isHexDig b && isHexDig c && isHexDig d then
        Char.ofNat (((hexVal a * 16 + hexVal b) * 16 + hexVal c) * 16 + hexVal d)
          :: replUnicode rest
      else '\\' :: replUnicode ('u' :: a :: b :: c :: d :: rest)
  | c :: rest => c :: replUnicode rest
  | [] => []

/-- Model of `.replace(/\\x([0-9a-fA-F]{2})/g, …)`. -/
def replHex : List Char → List Char
  | '\\' :: 'x' :: a :: b :: rest =>
      if isHexDig a && isHexDig b then
        Char.ofNat (hexVal a * 16 + hexVal b) :: replHex rest
      else '\\' :: replHex ('x' :: a :: b :: rest)
  | c :: rest => c :: replHex rest
  | [] => []

/-- Global replace of the literal sequence `pat` by `rep`
(leftmost, non-overlapping), fuelled by the input length. -/
def replSeq (pat rep : List Char) : Nat → List Char → List Char
  | 0, l => l
  | _ + 1, [] => []
  | fuel + 1, c :: rest =>
      if !pat.isEmpty && listIsPre pat (c :: rest) then
        rep ++ replSeq pat rep fuel ((c :: rest).drop pat.length)
      else c :: replSeq pat rep fuel rest

/-- The first four decode steps (`\uXXXX`, `\xXX`, `\/`, `\"`): the inline
decode of `getBestUrl` (content.js 330-336) and of `extractUrlFromAttribute`
(part_004 304-310).  The JS try/catch around this body is dead (the body
cannot throw), so the model is a total function. -/
def decodeEscapes4 (s : String) : String :=
  let l1 := replUnicode s.data
  let l2 := replHex l1
  let l3 := replSeq ['\\', '/'] ['/'] l2.length l2
  let l4 := replSeq ['\\', '"'] ['"'] l3.length l3
  ⟨l4⟩

/-- `decodeGoogleString` (content.js 475-492): the four steps above plus
`\'` → `'`, `\n` → `''`, `\t` → `''`.  `if (!str) return str` makes the
empty string a fixed point. -/
def decodeGoogleString (s : String) : String :=
  if s = "" then s else
  let l1 := replUnicode s.data
  let l2 := replHex l1
  let l3 := replSeq ['\\', '/'] ['/'] l2.length l2
  let l4 := replSeq ['\\', '"'] ['"'] l3.length l3
  let l5 := replSeq ['\\', apos] [apos] l4.length l4
  let l6 := replSeq ['\\', 'n'] [] l5.length l5
  let l7 := replSeq ['\\', 't'] [] l6.length l6
  ⟨l7⟩

/-! ## `decodeURIComponent` model

The single genuinely throwing builtin the engine calls.  Modelled as a
percent-decoder returning `Except`: a `%` not followed by two hex digits
throws `URIError` (UTF-8 multibyte validation is not modelled; only the
possibility of failure matters to the catch-placement claims). -/

def pctDecode : List Char → Option (List Char)
  | [] => some []
  | '%' :: a :: b :: rest =>
      if isHexDig a && isHexDig b then
        (pctDecode rest).map (Char.ofNat (hexVal a * 16 + hexVal b) :: ·)
      else none
  | '%' :: _ => none
  | c :: rest => (pctDecode rest).map (c :: ·)

def decodeURIComponentM (s : String) : Except Unit String :=
  match pctDecode s.data with
  | some l => .ok ⟨l⟩
  | none => .error ()

/-! ## URL scanner: model of the global image-URL regexes

All three scanner regexes have the shape
`https?:\/\/[CLASS]+\.(?:EXT1|EXT2|…)(?:\?[CLASS]*)?` with the `gi` flags.
A match at a position: the scheme, then the maximal run `W` of class
characters; the greedy `[CLASS]+` backtracks to the rightmost `.` of `W`
(at least one class character before it) that is followed by one of the
extension alternatives (tried in alternation order, case-insensitively);
an optional query part then consumes the remaining class run when it starts
with `?`.  The global scan collects leftmost non-overlapping matches. -/

/-- Try the extension alternatives in order; on success return the consumed
characters (original case) and the remainder. -/
def extTry (exts : List (List Char)) (l : List Char) : Option (List Char × List Char) :=
  match exts with
  | [] => none
  | e :: es =>
      if listIsPre e (l.map Char.toLower) then some (l.take e.length, l.drop e.length)
      else extTry es l

/-- Search the class run `W` from the right for the last index `i ≥ 1` with
`W[i] = '.'` followed by an extension; returns
(chars before the dot, extension chars, rest of `W` after the extension). -/
def dotSearch (exts : List (List Char)) (W : List Char) : Nat → Option (List Char × List Char × List Char)
  | 0 => none
  | i + 1 =>
      match W.drop (i + 1) with
      | '.' :: r =>
          match extTry exts r with
          | some (e, rest) => some (W.take (i + 1), e, rest)
          | none => dotSearch exts W i
      | _ => dotSearch exts W i

/-- Match one image URL starting exactly at the head of `l`; returns
(matched characters, rest after the match). -/
def matchUrlAt (classChar : Char → Bool) (exts : List (List Char)) (allowQuery : Bool)
    (l : List Char) : Option (List Char × List Char) :=
  let low := l.map Char.toLower
  let schemeLen : Option Nat :=
    if listIsPre ['h', 't', 't', 'p'] low then
      match low.drop 4 with
      | 's' :: r2 => if listIsPre [':', '/', '/'] r2 then some 8 else none
      | r2 => if listIsPre [':', '/', '/'] r2 then some 7 else none
    else none
  match schemeLen with
  | none => none
  | some n =>
    let body := l.drop n
    let W := body.takeWhile classChar
    let R := body.dropWhile classChar
    match dotSearch exts W W.length with
    | none => none
    | some (A, E, Wrest) =>
        if A.isEmpty then none
        else if allowQuery then
          match Wrest with
          | '?' :: _ => some (l.take n ++ A ++ '.' :: E ++ Wrest, R)
          | _ => some (l.take n ++ A ++ '.' :: E, Wrest ++ R)
        else some (l.take n ++ A ++ '.' :: E, Wrest ++ R)

/-- Global scan: leftmost non-overlapping matches, advancing one character
past positions with no match.  Fuelled by the input length (every step
consumes at least one character, so the fuel never runs out when started
at `l.length`). -/
def scanUrls (classChar : Char → Bool) (exts : List (List Char)) (allowQuery : Bool) :
    Nat → List Char → List (List Char)
  | 0, _ => []
  | _ + 1, [] => []
  | fuel + 1, c :: rest =>
      match matchUrlAt classChar exts allowQuery (c :: rest) with
      | some (m, after) => m :: scanUrls classChar exts allowQuery fuel after
      | none => scanUrls classChar exts allowQuery fuel rest

/-- The `[^"\[\]\s,\\<>]` class (getBestUrl content.js 339, part_004 313).
`Char.isWhitespace` stands in for the JS `\s` class. -/
def classNoAngle (c : Char) : Bool :=
  !(c = '"' || c = '[' || c = ']' || c.isWhitespace || c = ',' || c = '\\' || c = '<' || c = '>')

/-- The `[^"\[\]\s,\\]` class (extractOriginalUrls content.js 579). -/
def classPlain (c : Char) : Bool :=
  !(c = '"' || c = '[' || c = ']' || c.isWhitespace || c = ',' || c = '\\')

/-- The `[^"'\s]` class of the fast-path regex (content.js 217). -/
def classFastPath (c : Char) : Bool :=
  !(c = '"' || c = apos || c.isWhitespace)

/-- Extension alternation of getBestUrl (content.js 339). -/
def gbExts : List (List Char) :=
  [['j','p','g'], ['j','p','e','g'], ['p','n','g'], ['w','e','b','p'],
   ['s','v','g'], ['g','i','f'], ['b','m','p']]

/-- Extension alternation of extractOriginalUrls (content.js 579):
`jpg|jpeg|png|webp|gif|bmp|svg|tiff?` (greedy `f?`, so `tiff` before `tif`). -/
def eouExts : List (List Char) :=
  [['j','p','g'], ['j','p','e','g'], ['p','n','g'], ['w','e','b','p'],
   ['g','i','f'], ['b','m','p'], ['s','v','g'], ['t','i','f','f'], ['t','i','f']]

/-- Extension alternation of part_004's extPattern (part_004 313). -/
def euaExts : List (List Char) :=
  [['j','p','g'], ['j','p','e','g'], ['p','n','g'], ['w','e','b','p'],
   ['s','v','g'], ['b','m','p'], ['g','i','f'], ['t','i','f','f'], ['t','i','f']]

/-- Extension alternation of the fast-path regex (content.js 217). -/
def fpExts : List (List Char) :=
  [['j','p','g'], ['p','n','g'], ['j','p','e','g'], ['w','e','b','p']]

/-- All image URLs found by getBestUrl's pattern (content.js 339), in order. -/
def findUrlsGB (s : String) : List String :=
  (scanUrls classNoAngle gbExts false s.data.length s.data).map (⟨·⟩)

/-- All image URLs found by extractOriginalUrls' pattern 1 (content.js 579). -/
def findUrlsEOU (s : String) : List String :=
  (scanUrls classPlain eouExts true s.data.length s.data).map (⟨·⟩)

/-- All image URLs found by part_004's extPattern (part_004 313). -/
def findUrlsEUA (s : String) : List String :=
  (scanUrls classNoAngle euaExts true s.data.length s.data).map (⟨·⟩)

/-- All image URLs found by the fast-path regex (content.js 217). -/
def findUrlsFP (s : String) : List String :=
  (scanUrls classFastPath fpExts false s.data.length s.data).map (⟨·⟩)

/-! ## Quoted-URL and array patterns (extractOriginalUrls patterns 2 and 3,
content.js 586-597; part_004's arrayPattern 316) — both case-sensitive,
`g` flag only. -/

/-- Case-sensitive scheme parse `https?:\/\/`; returns the length consumed. -/
def schemeLenCS (l : List Char) : Option Nat :=
  if listIsPre ['h', 't', 't', 'p'] l then
    match l.drop 4 with
    | 's' :: r2 => if listIsPre [':', '/', '/'] r2 then some 8 else none
    | r2 => if listIsPre [':', '/', '/'] r2 then some 7 else none
  else none

/-- Match `"(https?:\/\/[^"\\]+)"` at the head of `l`: returns the capture
(inner URL) and the rest after the closing quote. -/
def matchQuotedAt (l : List Char) : Option (List Char × List Char) :=
  match l with
  | '"' :: r =>
      match schemeLenCS r with
      | none => none
      | some n =>
          let body := r.drop n
          let U := body.takeWhile (fun c => !(c = '"' || c = '\\'))
          let rest := body.dropWhile (fun c => !(c = '"' || c = '\\'))
          if U.isEmpty then none
          else match rest with
            | '"' :: after => some (r.take n ++ U, after)
            | _ => none
  | _ => none

/-- Global scan for pattern 2. -/
def scanQuoted : Nat → List Char → List (List Char)
  | 0, _ => []
  | _ + 1, [] => []
  | fuel + 1, c :: rest =>
      match matchQuotedAt (c :: rest) with
      | some (m, after) => m :: scanQuoted fuel after
      | none => scanQuoted fuel rest

/-- Match `\["(https?:\/\/[^"]+)",\s*(\d+),\s*(\d+)\]` at the head of `l`:
returns ((url capture, width, height), rest after the match). -/
def matchArrayAt (l : List Char) : Option ((List Char × Nat × Nat) × List Char) :=
  match l with
  | '[' :: '"' :: r =>
      match schemeLenCS r with
      | none => none
      | some n =>
          let body := r.drop n
          let U := body.takeWhile (fun c => c ≠ '"')
          let rest := body.dropWhile (fun c => c ≠ '"')
          if U.isEmpty then none
          else match rest with
            | '"' :: ',' :: r2 =>
                let r3 := r2.dropWhile Char.isWhitespace
                let D1 := r3.takeWhile Char.isDigit
                let r4 := r3.dropWhile Char.isDigit
                if D1.isEmpty then none
                else match r4 with
                  | ',' :: r5 =>
                      let r6 := r5.dropWhile Char.isWhitespace
                      let D2 := r6.takeWhile Char.isDigit
                      let r7 := r6.dropWhile Char.isDigit
                      if D2.isEmpty then none
                      else match r7 with
                        | ']' :: after =>
                            some ((r.take n ++ U, natOfDigits D1, natOfDigits D2), after)
                        | _ => none
                  | _ => none
            | _ => none
  | _ => none

/-- Global scan for the array pattern. -/
def scanArrays : Nat → List Char → List (List Char × Nat × Nat)
  | 0, _ => []
  | _ + 1, [] => []
  | fuel + 1, c :: rest =>
      match matchArrayAt (c :: rest) with
      | some (m, after) => m :: scanArrays fuel after
      | none => scanArrays fuel rest

/-! ## Stable sort (model of `Array.prototype.sort` with a consistent
comparator: JS guarantees a stable sort; for a total-preorder comparator
the stable sorted permutation is unique, so a stable insertion sort is the
same function) -/

/-- Insert `x` before the first element `y` with `le x y`. -/
def insertLe {α : Type} (le : α → α → Bool) (x : α) : List α → List α
  | [] => [x]
  | y :: ys => if le x y then x :: y :: ys else y :: insertLe le x ys

/-- Stable insertion sort by the comparator preorder `le`
(`le a b` = "the comparator allows `a` no later than `b`"). -/
def sortLe {α : Type} (le : α → α → Bool) : List α → List α
  | [] => []
  | x :: xs => insertLe le x (sortLe le xs)

/-! ## Denylists and validity checks -/

/-- The getBestUrl candidate filter (content.js 345-352): a candidate is
dropped iff its lowercase form contains one of the five denylisted host
patterns. -/
def gbDeny (url : String) : Bool :=
  let low := lowerStr url
  strContains low "gstatic.com" || strContains low "googleusercontent.com" ||
  strContains low "encrypted-tbn" || strContains low "ggpht.com" ||
  strContains low "googleapis.com"

/-- part_004's candidate filter (part_004 342-351): the five patterns plus a
`data:` scheme test. -/
def euaDeny (url : String) : Bool :=
  let low := lowerStr url
  strContains low "gstatic.com" || strContains low "googleusercontent.com" ||
  strContains low "encrypted-tbn" || strContains low "ggpht.com" ||
  strContains low "googleapis.com" || jsStartsWith low "data:"

/-- `isGoogleThumbnail` (content.js 516-527). -/
def isGoogleThumbnail (url : String) : Bool :=
  if url = "" then true else
  let low := lowerStr url
  strContains low "encrypted-tbn" || strContains low "gstatic.com" ||
  strContains low "googleusercontent.com" || strContains low "ggpht.com" ||
  strContains low "google.com/images" || strContains low "googleapis.com"

/-- `isValidOriginalUrl` (content.js 532-541). -/
def isValidOriginalUrl (url : String) : Bool :=
  if url = "" then false else
  jsStartsWith url "http" && !isGoogleThumbnail url && !(url.length < 20)

/-! ## The Filter/Ranker -/

/-- getBestUrl's comparator `(a, b) => b.length - a.length` as a total
preorder: `a` may precede `b` iff the comparator is ≤ 0. -/
def gbLenLe (a b : String) : Bool := b.length ≤ a.length

/-- getBestUrl's selection from the filtered candidates: stable sort by the
length comparator, then `candidates[0]` (content.js 359-368, before the
final `decodeURIComponent`). -/
def gbSelect (candidates : List String) : Option String :=
  (sortLe gbLenLe candidates).head?

/-- getBestUrl's Filter/Ranker (content.js 345-368): drop denylisted
candidates, return null on an empty remainder, else the length-ranked
best. -/
def gbFilterRank (allUrls : List String) : Option String :=
  let candidates := allUrls.filter (fun u => !gbDeny u)
  if candidates.isEmpty then none else gbSelect candidates

/-- `getBestUrl` (content.js 325-372).  The result lives in `Except` to
record that no exception escapes: the only throwing call,
`decodeURIComponent(candidates[0])`, is wrapped in try/catch by the source
(content.js 367-371). -/
def getBestUrl (metadataString : Option String) : Except Unit (Option String) :=
  match metadataString with
  | none => .ok none
  | some s =>
    if s = "" then .ok none else
    let decoded := decodeEscapes4 s
    let allUrls := findUrlsGB decoded
    match gbFilterRank allUrls with
    | none => .ok none
    | some best =>
        match decodeURIComponentM best with
        | .ok d => .ok (some d)
        | .error _ => .ok (some best)

/-- `getBestUrl` as the plain value the callers see. -/
def getBestUrlPlain (metadataString : Option String) : Option String :=
  match getBestUrl metadataString with
  | .ok r => r
  | .error _ => none

/-- A candidate of part_004's ranker: URL plus pixel count
(`width * height`, `0` for extension-pattern matches). -/
structure PixCand where
  url : String
  pixels : Nat
deriving Repr, DecidableEq

/-- part_004's comparator (357-361): pixel count descending, ties by URL
length descending, as a total preorder (comparator ≤ 0). -/
def pixLenLe (a b : PixCand) : Bool :=
  if a.pixels = b.pixels then b.url.length ≤ a.url.length else b.pixels ≤ a.pixels

/-- part_004's selection from the filtered candidates: stable sort by
`pixLenLe`, then `candidates[0]`. -/
def euaSelect (cands : List PixCand) : Option PixCand :=
  (sortLe pixLenLe cands).head?

/-- part_004's Filter/Ranker (part_004 340-369): drop denylisted
candidates, return null on an empty remainder, else the pixel-then-length
ranked best. -/
def euaFilterRank (cands : List PixCand) : Option PixCand :=
  let candidates := cands.filter (fun c => !euaDeny c.url)
  if candidates.isEmpty then none else euaSelect candidates

/-- `extractUrlFromAttribute` (part_004 296-370). -/
def extractUrlFromAttribute (attrValue : Option String) : Option String :=
  match attrValue with
  | none => none
  | some s =>
    if s = "" then none else
    let decoded := decodeEscapes4 s
    let extMatches := findUrlsEUA decoded
    let arrayMatches := (scanArrays decoded.data.length decoded.data).filterMap
        (fun t => if 100 < t.2.1 && 100 < t.2.2 then
            some ({ url := ⟨t.1⟩, pixels := t.2.1 * t.2.2 } : PixCand)
          else none)
    let allUrls := extMatches.map (fun u => ({ url := u, pixels := 0 } : PixCand)) ++ arrayMatches
    (euaFilterRank allUrls).map (·.url)

/-- A candidate of extractOriginalUrls: URL plus the dimensions captured by
the array pattern (`0` for the string patterns). -/
structure DimCand where
  url : String
  width : Nat
  height : Nat
deriving Repr, DecidableEq

/-- extractOriginalUrls' comparator (609):
`(a, b) => b.width * b.height - a.width * a.height` as a total preorder. -/
def dimLe (a b : DimCand) : Bool := b.width * b.height ≤ a.width * a.height

/-- `extractOriginalUrls` (content.js 572-614). -/
def extractOriginalUrls (metadataString : Option String) : List String :=
  match metadataString with
  | none => []
  | some s =>
    if s = "" then [] else
    let decoded := decodeGoogleString s
    let p1 := findUrlsEOU decoded
    let p2 := (scanQuoted decoded.data.length decoded.data).map (fun l => (⟨l⟩ : String))
    let p3 := (scanArrays decoded.data.length decoded.data).map
        (fun t => ({ url := ⟨t.1⟩, width := t.2.1, height := t.2.2 } : DimCand))
    let allUrls := p1.map (fun u => ({ url := u, width := 0, height := 0 } : DimCand)) ++
        p2.map (fun u => ({ url := u, width := 0, height := 0 } : DimCand)) ++ p3
    let originalUrls := (allUrls.filter (fun c => isValidOriginalUrl c.url)).map
        (fun c => { c with url := decodeGoogleString c.url })
    (sortLe dimLe originalUrls).map (·.url)

/-! ## `stripSizingParameters` (content.js 498-511)

Five `String.replace` steps without the `g` flag:
three `$`-anchored suffix rules (`i` flag) —
`=w\d+(-h\d+)?(-[a-z-]+)?$`, `=s\d+(-[a-z-]+)?$`, `=h\d+(-[a-z-]+)?$` —
each of which removes the longest (leftmost-starting) suffix in the
pattern language, and two case-sensitive mid-URL rules that replace the
first occurrence of `/w\d+-h\d+/` resp. `/s\d+/` by `/`. -/

/-- The `[a-z-]` class under the `i` flag. -/
def isAZdash (c : Char) : Bool := c = '-' || ('a' ≤ c.toLower && c.toLower ≤ 'z')

/-- The optional trailing `(-[a-z-]+)?` anchored at the end: empty, or a
dash followed by a nonempty `[a-z-]` run. -/
def dashTailOk : List Char → Bool
  | [] => true
  | '-' :: cs => !cs.isEmpty && cs.all isAZdash
  | _ => false

/-- Membership in `=w\d+(-h\d+)?(-[a-z-]+)?` (whole-string, `i` flag). -/
def isEndW (t : List Char) : Bool :=
  match t with
  | c1 :: w :: r =>
      c1 = '=' && w.toLower = 'w' &&
      (let ds := r.takeWhile Char.isDigit
       let r1 := r.dropWhile Char.isDigit
       !ds.isEmpty &&
       (dashTailOk r1 ||
        (match r1 with
         | c2 :: h :: r2 =>
             c2 = '-' && h.toLower = 'h' &&
             (let ds2 := r2.takeWhile Char.isDigit
              let r3 := r2.dropWhile Char.isDigit
              !ds2.isEmpty && dashTailOk r3)
         | _ => false)))
  | _ => false

/-- Membership in `=s\d+(-[a-z-]+)?` (whole-string, `i` flag). -/
def isEndS (t : List Char) : Bool :=
  match t with
  | c1 :: s :: r =>
      c1 = '=' && s.toLower = 's' &&
      (let ds := r.takeWhile Char.isDigit
       let r1 := r.dropWhile Char.isDigit
       !ds.isEmpty && dashTailOk r1)
  | _ => false

/-- Membership in `=h\d+(-[a-z-]+)?` (whole-string, `i` flag). -/
def isEndH (t : List Char) : Bool :=
  match t with
  | c1 :: h :: r =>
      c1 = '=' && h.toLower = 'h' &&
      (let ds := r.takeWhile Char.isDigit
       let r1 := r.dropWhile Char.isDigit
       !ds.isEmpty && dashTailOk r1)
  | _ => false

/-- Remove the longest (leftmost-starting) suffix satisfying `p`; if no
suffix satisfies `p`, return the input unchanged.  Model of a
`$`-anchored `String.replace` by the empty string. -/
def stripSuffixMatch (p : List Char → Bool) : List Char → List Char
  | [] => []
  | c :: rest => if p (c :: rest) then [] else c :: stripSuffixMatch p rest

/-- Match `/w\d+-h\d+/` at the head; returns the rest after the closing
slash (case-sensitive, digits maximal). -/
def midWH (l : List Char) : Option (List Char) :=
  match l with
  | a :: b :: r =>
      if a = '/' && b = 'w' then
        let d1 := r.takeWhile Char.isDigit
        let r1 := r.dropWhile Char.isDigit
        if d1.isEmpty then none
        else
          match r1 with
          | c :: d :: r2 =>
              if c = '-' && d = 'h' then
                let d2 := r2.takeWhile Char.isDigit
                let r3 := r2.dropWhile Char.isDigit
                if d2.isEmpty then none
                else
                  match r3 with
                  | e :: r4 => if e = '/' then some r4 else none
                  | [] => none
              else none
          | _ => none
      else none
  | _ => none

/-- Match `/s\d+/` at the head; returns the rest after the closing slash. -/
def midS (l : List Char) : Option (List Char) :=
  match l with
  | a :: b :: r =>
      if a = '/' && b = 's' then
        let d1 := r.takeWhile Char.isDigit
        let r1 := r.dropWhile Char.isDigit
        if d1.isEmpty then none
        else
          match r1 with
          | e :: r2 => if e = '/' then some r2 else none
          | [] => none
      else none
  | _ => none

/-- The host is exactly `w\d+-h\d+` (the shape the first mid-URL rule can
swallow together with its surrounding slashes). -/
def hostShapeWH (H : List Char) : Bool :=
  match H with
  | b :: r =>
      b = 'w' &&
      (let d1 := r.takeWhile Char.isDigit
       let r1 := r.dropWhile Char.isDigit
       !d1.isEmpty &&
       (match r1 with
        | c :: d :: r2 =>
            c = '-' && d = 'h' &&
            (let d2 := r2.takeWhile Char.isDigit
             let r3 := r2.dropWhile Char.isDigit
             !d2.isEmpty && r3.isEmpty)
        | _ => false))
  | [] => false

/-- The host is exactly `s\d+` (the shape the second mid-URL rule can
swallow together with its surrounding slashes). -/
def hostShapeS (H : List Char) : Bool :=
  match H with
  | b :: r =>
      b = 's' &&
      (let d1 := r.takeWhile Char.isDigit
       let r1 := r.dropWhile Char.isDigit
       !d1.isEmpty && r1.isEmpty)
  | [] => false

/-- Replace the first (leftmost) match of `m` by `/`.  Model of a
non-global `String.replace` of a slash-delimited pattern by `"/"`. -/
def replaceFirstMid (m : List Char → Option (List Char)) : List Char → List Char
  | [] => []
  | c :: rest =>
      match m (c :: rest) with
      | some after => '/' :: after
      | none => c :: replaceFirstMid m rest

/-- `stripSizingParameters` (content.js 498-511; identically part_004
551-564).  `if (!url) return url` makes the empty string a fixed point,
which the five steps already preserve. -/
def stripSizingParameters (url : String) : String :=
  let l1 := stripSuffixMatch isEndW url.data
  let l2 := stripSuffixMatch isEndS l1
  let l3 := stripSuffixMatch isEndH l2
  let l4 := replaceFirstMid midWH l3
  let l5 := replaceFirstMid midS l4
  ⟨l5⟩

/-- Does any (nonempty) suffix satisfy `p`?  (Whether a `$`-anchored rule
fires.) -/
def anySuffix (p : List Char → Bool) : List Char → Bool
  | [] => false
  | c :: rest => p (c :: rest) || anySuffix p rest

/-- Does `m` match at any position?  (Whether a mid-URL rule fires.) -/
def anyMid (m : List Char → Option (List Char)) : List Char → Bool
  | [] => false
  | c :: rest => (m (c :: rest)).isSome || anyMid m rest

/-- A sizing token (any of the five rule patterns) occurs somewhere in the
string. -/
def hasSizingToken (s : String) : Bool :=
  anySuffix isEndW s.data || anySuffix isEndS s.data || anySuffix isEndH s.data ||
  anyMid midWH s.data || anyMid midS s.data

/-! ## `isDirectImageUrl` (content.js 17-39) -/

/-- Tail of the test regex `\.(jpg|jpeg|png|gif|webp|bmp|svg|tiff|ico)(\?.*)?$`:
does the (already lowercased) suffix start with `.EXT`, followed by nothing
or by a `?` and a newline-free tail? -/
def imageExtHere (t : List Char) : Bool :=
  [['j','p','g'], ['j','p','e','g'], ['p','n','g'], ['g','i','f'], ['w','e','b','p'],
   ['b','m','p'], ['s','v','g'], ['t','i','f','f'], ['i','c','o']].any (fun e =>
    listIsPre ('.' :: e) t &&
    (let rest := t.drop (e.length + 1)
     rest.isEmpty || (rest.head? = some '?' && rest.all (· ≠ '\n'))))

/-- `isDirectImageUrl` (content.js 17-39); `none` models a null/undefined
argument. -/
def isDirectImageUrl (url : Option String) : Bool :=
  match url with
  | none => false
  | some u =>
    if u = "" then false else
    jsStartsWith u "http" && !jsStartsWith u "data:" &&
    !strContains u "encrypted-tbn" && !strContains u "gstatic.com" &&
    !strContains u "googleusercontent.com" && !strContains u "google.com/" &&
    !strContains u "ggpht.com" &&
    !strContains u "/wiki/File:" && !strContains u "/wiki/Image:" &&
    !strContains u "wikipedia.org/wiki/" &&
    anySuffix imageExtHere (u.data.map Char.toLower)

/-! ## `URLSearchParams` model (fast path, content.js 204-213) -/

/-- `application/x-www-form-urlencoded` decoding: `+` → space, `%XX` → byte,
invalid percent sequences kept literally (this decoder never throws). -/
def formDecodeL : List Char → List Char
  | [] => []
  | '+' :: r => ' ' :: formDecodeL r
  | '%' :: a :: b :: r =>
      if isHexDig a && isHexDig b then Char.ofNat (hexVal a * 16 + hexVal b) :: formDecodeL r
      else '%' :: formDecodeL (a :: b :: r)
  | c :: r => c :: formDecodeL r

/-- Parse a query string as `URLSearchParams` does: split on `&`, drop empty
pieces, key before the first `=`, value after it (empty when absent),
both form-decoded. -/
def parseQueryPairs (qs : String) : List (String × String) :=
  (splitOnChar '&' qs.data).filterMap (fun piece =>
    if piece.isEmpty then none
    else match splitOnChar '=' piece with
      | [] => none
      | k :: vs =>
          some ((⟨formDecodeL k⟩ : String),
                (⟨formDecodeL (List.intercalate ['='] vs)⟩ : String)))

/-! ## First occurrence of `imgurl=([^&]+)` (content.js 155, 556-563) -/

/-- First match of `/imgurl=([^&]+)/`: the capture at the first position
where `imgurl=` is followed by at least one non-`&` character. -/
def imgurlScan : List Char → Option (List Char)
  | [] => none
  | c :: rest =>
      if listIsPre ['i','m','g','u','r','l','='] (c :: rest) then
        let v := ((c :: rest).drop 7).takeWhile (· ≠ '&')
        if v.isEmpty then imgurlScan rest else some v
      else imgurlScan rest

/-! ## The extraction session (content.js 195-267) and its observable
side effects -/

/-- Observable activation/cleanup side effects on the host document. -/
inductive Effect
  | closePrev        -- closePreview(): synthetic Escape keydown
  | injectStyle      -- hidePreview(): append the suppression style element
  | dispatchClickSeq -- triggerPreview(): pointer/mouse press-release-click
  | removeStyle      -- showPreview(style): remove the suppression element
deriving Repr, DecidableEq

/-- Outcome of a JS step: a value, or a thrown exception. -/
inductive StepResult (α : Type)
  | ok (a : α)
  | err
deriving Repr, DecidableEq

/-- Environment-chosen outcomes of the awaited slow-path steps: dispatching
the click sequence runs arbitrary host handlers (which may throw), and the
observation window resolves to a URL or `null` (or rejects). -/
structure SlowOracle where
  triggerOutcome : StepResult Unit
  waitOutcome : StepResult (Option String)

/-- The raw fast-path body (content.js 200-227), before the `catch` at 228:
`imgurl` query parameter first, then the inline regex scan of the href.
The `Except` carries the `decodeURIComponent` throw at 208. -/
def rawFastPath (parentHref : Option String) : Except Unit (Option String) :=
  match parentHref with
  | none => .ok none
  | some href =>
    let queryPart : String := ⟨((splitOnChar '?' href.data).get? 1).getD []⟩
    let params := parseQueryPairs queryPart
    let fromImgurl : Except Unit (Option String) :=
      match params.lookup "imgurl" with
      | some v =>
          match decodeURIComponentM v with
          | .error e => .error e
          | .ok imgUrl => .ok (if isDirectImageUrl (some imgUrl) then some imgUrl else none)
      | none => .ok none
    match fromImgurl with
    | .error e => .error e
    | .ok (some u) => .ok (some u)
    | .ok none =>
        .ok ((findUrlsFP href).find?
          (fun url => isDirectImageUrl (some url) && !strContains url "encrypted-tbn"))

/-- `extractHighResUrl` (content.js 195-267): fast path; on failure (or a
caught fast-path throw) the ghost-click slow path — pre-clean, suppression
style injection, synthetic click, observation wait — with
`catch { return null }` and `finally { showPreview; closePreview }`.
Returns the result together with the ordered side-effect trace. -/
def extractHighResUrl (parentHref : Option String) (o : SlowOracle) :
    StepResult (Option String) × List Effect :=
  match rawFastPath parentHref with
  | .ok (some u) => (.ok (some u), [])
  | _ =>
    match o.triggerOutcome with
    | .err => (.ok none, [.closePrev, .injectStyle, .dispatchClickSeq, .removeStyle, .closePrev])
    | .ok _ =>
        match o.waitOutcome with
        | .err => (.ok none, [.closePrev, .injectStyle, .dispatchClickSeq, .removeStyle, .closePrev])
        | .ok url =>
            (.ok url, [.closePrev, .injectStyle, .dispatchClickSeq, .closePrev, .removeStyle, .closePrev])

/-- Is the suppression style element still attached after the trace?
(The document starts without it; injections and removals are counted.) -/
def styleAttachedAfter (tr : List Effect) : Bool :=
  tr.count Effect.removeStyle < tr.count Effect.injectStyle

/-- `ghostClickAndExtract` (part_002 185-222): style injection, then
`try { trigger; wait; closePreviewPanel } finally { removeHideStyle }` —
note: no catch, so a thrown error propagates to the caller, after the
finally block has removed the style. -/
def ghostClickAndExtract (o : SlowOracle) : StepResult (Option String) × List Effect :=
  match o.triggerOutcome with
  | .err => (.err, [.injectStyle, .dispatchClickSeq, .removeStyle])
  | .ok _ =>
      match o.waitOutcome with
      | .err => (.err, [.injectStyle, .dispatchClickSeq, .removeStyle])
      | .ok url => (.ok url, [.injectStyle, .dispatchClickSeq, .closePrev, .removeStyle])

/-- The `getOriginalUrl` message handler (content.js 276-304): no target →
`{ originalUrl: null }`; otherwise the extraction's `.then` sends the URL or
`null` and the `.catch` (296-299) sends `null`. -/
def onGetOriginalUrl (hasTarget : Bool) (parentHref : Option String) (o : SlowOracle) :
    Except Unit (Option String) :=
  if !hasTarget then .ok none
  else
    match (extractHighResUrl parentHref o).1 with
    | .ok (some u) => .ok (some u)
    | .ok none => .ok none
    | .err => .ok none

/-! ## `waitForHighResUrl` (content.js 121-190): the rAF observation loop -/

/-- An `img` node as seen by the scan: `src` / `data-src` (falsy modelled
by `none` or the empty string), `naturalWidth` and `width`. -/
structure ImgNode where
  src : Option String
  dataSrc : Option String
  naturalWidth : Nat
  width : Nat
deriving Repr, DecidableEq

/-- A link as seen by method 3: href and its bounding rectangle. -/
structure LinkNode where
  href : String
  rectW : Nat
  rectH : Nat
deriving Repr, DecidableEq

/-- The parts of the document the three scan methods query. -/
structure PreviewDom where
  previewImages : List ImgNode  -- the preview-area selector matches (133-134)
  imgurlLinks : List String     -- hrefs of `a[href*="imgurl="]` (152)
  visitLinks : List LinkNode    -- hrefs of `a[href]:not([href*="google.com"])` (169)
deriving Repr, DecidableEq

/-- `img.src || img.getAttribute('data-src')` (139). -/
def imgEffectiveSrc (img : ImgNode) : Option String :=
  match img.src with
  | some s => if s = "" then img.dataSrc else some s
  | none => img.dataSrc

/-- One pass of the three scan methods (content.js 132-182, without the
timeout branch): preview images over 150px, then `imgurl=` links (the
`decodeURIComponent` throw is caught and the link skipped, 157-164), then
visible non-Google links. -/
def scanPreviewDom (d : PreviewDom) : Option String :=
  match d.previewImages.find? (fun img =>
      isDirectImageUrl (imgEffectiveSrc img) &&
      150 < (if img.naturalWidth ≠ 0 then img.naturalWidth else img.width)) with
  | some img => imgEffectiveSrc img
  | none =>
    match d.imgurlLinks.findSome? (fun href =>
        match imgurlScan href.data with
        | some raw =>
            match decodeURIComponentM (⟨raw⟩ : String) with
            | .ok dec => if isDirectImageUrl (some dec) then some dec else none
            | .error _ => none
        | none => none) with
    | some u => some u
    | none =>
        (d.visitLinks.find? (fun lk =>
            !strContains lk.href "google.com" &&
            isDirectImageUrl (some lk.href) && 0 < lk.rectW && 0 < lk.rectH)).map (·.href)

/-- `waitForHighResUrl` (content.js 121-190) over a finite schedule of
animation frames, each carrying the elapsed time at which `check` runs and
the document state it sees.  The timeout test comes FIRST (126-130): on a
frame past `maxWait` the promise resolves `null` without scanning that
frame's document. -/
def waitForHighResUrl (maxWait : Nat) : List (Nat × PreviewDom) → Option String
  | [] => none
  | (t, d) :: rest =>
      if maxWait < t then none
      else
        match scanPreviewDom d with
        | some u => some u
        | none => waitForHighResUrl maxWait rest

/-! ## The mutation-observer generation (content.js 314-470): right-click
capture session with safety-timeout final scan -/

/-- One observed attribute mutation. -/
structure MutationRec where
  attrName : String
  value : Option String
deriving Repr, DecidableEq

/-- The observer callback (content.js 410-427): only `data-i` / `data-ow`
mutations whose value holds an external http link are fed to `getBestUrl`;
the first hit disconnects the observer. -/
def observerCapture : List MutationRec → Option String
  | [] => none
  | m :: rest =>
      if m.attrName = "data-i" || m.attrName = "data-ow" then
        match m.value with
        | some v =>
            if v ≠ "" && strContains v "http" && !strContains v "gstatic.com" &&
                !strContains v "base64" then
              match getBestUrlPlain (some v) with
              | some u => some u
              | none => observerCapture rest
            else observerCapture rest
        | none => observerCapture rest
      else observerCapture rest

/-- Walk the attribute names in order; on each present attribute whose value
passes `guard`, try `getBestUrl` and stop at the first hit. -/
def checkAttrsWith (guard : String → Bool) (attrs : List (String × String)) :
    List String → Option String
  | [] => none
  | a :: rest =>
      match attrs.lookup a with
      | some val =>
          if guard val then
            match getBestUrlPlain (some val) with
            | some u => some u
            | none => checkAttrsWith guard attrs rest
          else checkAttrsWith guard attrs rest
      | none => checkAttrsWith guard attrs rest

/-- STEP 1 of the right-click handler (content.js 393-407): check
`data-i`, `data-ow`, `data-it` for an already-present non-base64 http
payload. -/
def step1Check (attrs : List (String × String)) : Option String :=
  checkAttrsWith (fun val => val ≠ "" && strContains val "http" && !strContains val "base64")
    attrs ["data-i", "data-ow", "data-it"]

/-- The final scan inside the 1.5 s safety timeout (content.js 454-468). -/
def finalCheck (attrs : List (String × String)) : Option String :=
  checkAttrsWith (fun val => val ≠ "" && strContains val "http")
    attrs ["data-i", "data-ow", "data-it"]

/-- The value of `capturedHighResUrl` after a full right-click capture
session of the observer generation: STEP 1 on the attributes at click time;
else whatever the observer captured; else, at the safety-timeout expiry,
one final synchronous scan of the attributes as they stand then
(content.js 450-469). -/
def runContextMenuCapture (attrsAtClick : List (String × String))
    (muts : List MutationRec) (attrsAtExpiry : List (String × String)) : Option String :=
  match step1Check attrsAtClick with
  | some u => some u
  | none =>
      match observerCapture muts with
      | some u => some u
      | none => finalCheck attrsAtExpiry

/-! ## The observer-generation message handler (content.js 967-1018) -/

/-- The handler-visible mutable state: the URL pre-captured by the
mutation observer, and whether a right-clicked target element is held. -/
structure HState where
  captured : Option String
  lastElem : Bool
deriving Repr, DecidableEq

/-- The extraction-path response (content.js 999-1012): the awaited
`getHighResUrl` value (`ext`), stripped of sizing parameters when present. -/
def extractionRespond (ext : Option String) : Option String :=
  match ext with
  | some w => some (stripSizingParameters w)
  | none => none

/-- The `getOriginalUrl` handler (content.js 967-1018) as a state
transition: a pre-captured URL is consumed — response sent from it, then
`capturedHighResUrl = null` before returning — otherwise the extraction
path answers and the state is unchanged. -/
def handleGetOriginal (ext : Option String) (s : HState) : Option String × HState :=
  match s.captured with
  | some u => (some (stripSizingParameters u), { s with captured := none })
  | none => (extractionRespond ext, s)

/-! # Theorems -/

/-- **C1.** Cleanup totality: on every exit path of an extraction session —
fast-path hit, accepted candidate, `null` after the deadline, or an internal
error thrown by the synthetic interaction or the observation wait — the
injected suppression style element is no longer attached when the session
returns (content.js `extractHighResUrl` with its finally block 260-266, and
part_002 `ghostClickAndExtract` with its finally block 217-221). -/
theorem cleanup_totality (ph : Option String) (o : SlowOracle) :
    styleAttachedAfter (extractHighResUrl ph o).2 = false ∧
    styleAttachedAfter (ghostClickAndExtract o).2 = false := by
  obtain ⟨tr, w⟩ := o
  constructor
  · unfold extractHighResUrl
    cases h : rawFastPath ph with
    | error e => cases tr <;> cases w <;> rfl
    | ok r =>
      cases r with
      | some u => rfl
      | none => cases tr <;> cases w <;> rfl
  · unfold ghostClickAndExtract
    cases tr <;> cases w <;> rfl

/-- **C2.** Every `getOriginalUrl` request is answered with exactly
`{ originalUrl }` whose value is a string or null; a missing target or a
best-effort failure yields `{ originalUrl: null }`, and no exception
escapes the handler (content.js 276-304). -/
theorem response_shape (t : Bool) (ph : Option String) (o : SlowOracle) :
    (∃ r : Option String, onGetOriginalUrl t ph o = .ok r) ∧
    onGetOriginalUrl false ph o = .ok none ∧
    ((extractHighResUrl ph o).1 = .ok none → onGetOriginalUrl true ph o = .ok none) := by
  refine ⟨?_, rfl, ?_⟩
  · unfold onGetOriginalUrl
    cases t with
    | false => exact ⟨none, rfl⟩
    | true =>
      cases h : (extractHighResUrl ph o).1 with
      | err => exact ⟨none, by simp [h]⟩
      | ok r =>
        cases r with
        | some u => exact ⟨some u, by simp [h]⟩
        | none => exact ⟨none, by simp [h]⟩
  · intro h
    unfold onGetOriginalUrl
    simp [h]

/-- Witness for `response_shape`: with no parent anchor and an observation
window that resolves null, the handler answers `{ originalUrl: null }`. -/
theorem response_shape_witness :
    (extractHighResUrl none ⟨.ok (), .ok none⟩).1 = .ok none ∧
    onGetOriginalUrl true none ⟨.ok (), .ok none⟩ = .ok none :=
  ⟨rfl, (response_shape true none ⟨.ok (), .ok none⟩).2.2 rfl⟩

/-- **C8.** Fast-path precedence: whenever the fast-path scan of the parent
anchor's data yields an accepted candidate, `extractHighResUrl` returns it
with an empty side-effect trace — no suppression style node is created and
no synthetic events are dispatched (content.js 198-227 precede 235-266 on
every path). -/
theorem fast_path_no_side_effects (ph : Option String) (o : SlowOracle) (u : String)
    (h : rawFastPath ph = .ok (some u)) :
    extractHighResUrl ph o = (.ok (some u), []) := by
  unfold extractHighResUrl
  rw [h]

/-- Witness for `fast_path_no_side_effects`: a classic `imgres` anchor with
an `imgurl` query parameter resolves on the fast path with no side
effects. -/
theorem fast_path_no_side_effects_witness :
    rawFastPath
        (some "https://www.google.com/imgres?imgurl=https%3A%2F%2Fcdn.example.com%2Ffull%2Fphoto.jpg&h=1")
      = .ok (some "https://cdn.example.com/full/photo.jpg") ∧
    extractHighResUrl
        (some "https://www.google.com/imgres?imgurl=https%3A%2F%2Fcdn.example.com%2Ffull%2Fphoto.jpg&h=1")
        ⟨.ok (), .ok none⟩
      = (.ok (some "https://cdn.example.com/full/photo.jpg"), []) :=
  ⟨rfl, fast_path_no_side_effects _ ⟨.ok (), .ok none⟩ _ rfl⟩

/-- **C10.** One-shot consumption of the pre-captured URL: when the handler
answers from `capturedHighResUrl`, it answers with the stripped URL, the
stored state is cleared before the handler returns, and an immediately
following request is answered by the fresh-extraction path (content.js
972-980). -/
theorem captured_one_shot (s : HState) (u : String) (e e2 : Option String)
    (h : s.captured = some u) :
    (handleGetOriginal e s).1 = some (stripSizingParameters u) ∧
    ((handleGetOriginal e s).2).captured = none ∧
    (handleGetOriginal e2 (handleGetOriginal e s).2).1 = extractionRespond e2 := by
  unfold handleGetOriginal
  rw [h]
  exact ⟨rfl, rfl, rfl⟩

/-- A member of the head position of a list. -/
theorem head?_mem_of_eq {α : Type} {l : List α} {a : α} (h : l.head? = some a) : a ∈ l := by
  cases l with
  | nil => simp at h
  | cons b t =>
    simp only [List.head?_cons, Option.some.injEq] at h
    exact h ▸ List.mem_cons_self b t

/-- Membership across `insertLe`. -/
theorem mem_insertLe {α : Type} {le : α → α → Bool} {x a : α} {l : List α} :
    a ∈ insertLe le x l ↔ a = x ∨ a ∈ l := by
  induction l with
  | nil => simp [insertLe]
  | cons y ys ih =>
    unfold insertLe
    split
    · simp [or_comm, or_left_comm]
    · simp [ih, or_comm, or_left_comm]

/-- Membership across `sortLe`. -/
theorem mem_sortLe {α : Type} {le : α → α → Bool} {a : α} {l : List α} :
    a ∈ sortLe le l ↔ a ∈ l := by
  induction l with
  | nil => simp [sortLe]
  | cons x xs ih => simp [sortLe, mem_insertLe, ih]

/-- `insertLe` preserves sortedness for a transitive, total comparator. -/
theorem pairwise_insertLe {α : Type} {le : α → α → Bool}
    (htrans : ∀ a b c, le a b = true → le b c = true → le a c = true)
    (htotal : ∀ a b, le a b = true ∨ le b a = true)
    {x : α} {l : List α} (h : l.Pairwise (fun a b => le a b = true)) :
    (insertLe le x l).Pairwise (fun a b => le a b = true) := by
  induction l with
  | nil => simp [insertLe]
  | cons y ys ih =>
    rcases List.pairwise_cons.mp h with ⟨hy, hys⟩
    unfold insertLe
    by_cases hc : le x y = true
    · rw [if_pos hc]
      refine List.pairwise_cons.mpr ⟨?_, h⟩
      intro z hz
      rcases List.mem_cons.mp hz with rfl | hz2
      · exact hc
      · exact htrans x y z hc (hy z hz2)
    · rw [if_neg hc]
      refine List.pairwise_cons.mpr ⟨?_, ih hys⟩
      intro z hz
      rcases mem_insertLe.mp hz with heq | hz2
      · subst heq
        rcases htotal z y with hxy | hyx
        · exact absurd hxy hc
        · exact hyx
      · exact hy z hz2

/-- `sortLe` sorts, for a transitive, total comparator. -/
theorem pairwise_sortLe {α : Type} {le : α → α → Bool}
    (htrans : ∀ a b c, le a b = true → le b c = true → le a c = true)
    (htotal : ∀ a b, le a b = true ∨ le b a = true) (l : List α) :
    (sortLe le l).Pairwise (fun a b => le a b = true) := by
  induction l with
  | nil => simp [sortLe]
  | cons x xs ih => exact pairwise_insertLe htrans htotal ih

/-- The head of `sortLe` is a comparator-least element of the list, for a
reflexive, transitive, total comparator. -/
theorem sortLe_head_least {α : Type} {le : α → α → Bool}
    (hrefl : ∀ a, le a a = true)
    (htrans : ∀ a b c, le a b = true → le b c = true → le a c = true)
    (htotal : ∀ a b, le a b = true ∨ le b a = true)
    {l : List α} {c : α} (h : (sortLe le l).head? = some c) :
    ∀ d ∈ l, le c d = true := by
  intro d hd
  have hd2 : d ∈ sortLe le l := mem_sortLe.mpr hd
  cases hs : sortLe le l with
  | nil => rw [hs] at hd2; simp at hd2
  | cons a t =>
    rw [hs] at h hd2
    simp only [List.head?_cons, Option.some.injEq] at h
    rcases List.mem_cons.mp hd2 with rfl | hdt
    · rw [← h]
      exact hrefl _
    · have hp := @pairwise_sortLe _ le htrans htotal l
      rw [hs] at hp
      rw [← h]
      exact (List.pairwise_cons.mp hp).1 d hdt

/-- The part_004 comparator is reflexive. -/
theorem pixLenLe_refl (a : PixCand) : pixLenLe a a = true := by
  unfold pixLenLe
  simp

/-- The part_004 comparator is transitive. -/
theorem pixLenLe_trans (a b c : PixCand) (hab : pixLenLe a b) (hbc : pixLenLe b c) :
    pixLenLe a c = true := by
  unfold pixLenLe at hab hbc ⊢
  split at hab <;> split at hbc <;> split <;>
    simp only [decide_eq_true_eq] at * <;> omega

/-- The part_004 comparator is total. -/
theorem pixLenLe_total (a b : PixCand) : pixLenLe a b || pixLenLe b a := by
  unfold pixLenLe
  split <;> split <;> simp only [Bool.or_eq_true, decide_eq_true_eq] <;> omega

/-- **C3.** Denylist safety: neither Filter/Ranker ever selects a candidate
whose URL matches a denylisted host pattern — getBestUrl's five-pattern
filter (content.js 345-352) precedes its ranking, and part_004's filter
(342-351) precedes its pixel/length ranking, whatever the candidates'
pixel areas or string lengths. -/
theorem denylist_safety :
    (∀ (urls : List String) (c : String), gbFilterRank urls = some c → gbDeny c = false) ∧
    (∀ (cands : List PixCand) (c : PixCand), euaFilterRank cands = some c →
      euaDeny c.url = false) := by
  constructor
  · intro urls c h
    simp only [gbFilterRank, gbSelect] at h
    split at h
    · exact absurd h (by simp)
    · have hc : c ∈ sortLe gbLenLe (urls.filter (fun u => !gbDeny u)) :=
        head?_mem_of_eq h
      have hm := mem_sortLe.mp hc
      have hp := (List.mem_filter.mp hm).2
      simpa using hp
  · intro cands c h
    simp only [euaFilterRank, euaSelect] at h
    split at h
    · exact absurd h (by simp)
    · have hc : c ∈ sortLe pixLenLe (cands.filter (fun x => !euaDeny x.url)) :=
        head?_mem_of_eq h
      have hm := mem_sortLe.mp hc
      have hp := (List.mem_filter.mp hm).2
      simpa using hp

/-- Witness for `denylist_safety`: with a gstatic candidate of the longest
length and an external candidate, the external one is selected and is
denylist-free. -/
theorem denylist_safety_witness :
    gbFilterRank
        ["https://encrypted-tbn0.gstatic.com/images-very-long-thumbnail-proxy-path/q.jpg",
         "https://cdn.example.com/full/one.jpg"]
      = some "https://cdn.example.com/full/one.jpg" ∧
    gbDeny "https://cdn.example.com/full/one.jpg" = false ∧
    euaFilterRank
        [⟨"https://lh5.googleusercontent.com/huge-pixel-area-thumbnail.jpg", 100000000⟩,
         ⟨"https://cdn.example.com/full/two.jpg", 0⟩]
      = some ⟨"https://cdn.example.com/full/two.jpg", 0⟩ ∧
    euaDeny "https://cdn.example.com/full/two.jpg" = false :=
  ⟨rfl,
   denylist_safety.1
     ["https://encrypted-tbn0.gstatic.com/images-very-long-thumbnail-proxy-path/q.jpg",
      "https://cdn.example.com/full/one.jpg"]
     "https://cdn.example.com/full/one.jpg" rfl,
   rfl,
   denylist_safety.2
     [⟨"https://lh5.googleusercontent.com/huge-pixel-area-thumbnail.jpg", 100000000⟩,
      ⟨"https://cdn.example.com/full/two.jpg", 0⟩]
     ⟨"https://cdn.example.com/full/two.jpg", 0⟩ rfl⟩

/-- **C4 counterexample.**  The content.js ranker `extractOriginalUrls`
(599-614) sorts by pixel area only: with two denylist-free candidates of
pixel area 0 and lengths 40 and 95, scanned in that order, its stable sort
keeps the 40-character candidate first — the claimed length tie-break does
not happen there. -/
theorem rank_tiebreak_counterexample :
    extractOriginalUrls
        (some "https://a.example.com/p/q/r/abcde-ef.jpg https://media.example.org/wp-content/uploads/2024/12/original-photograph-of-a-mountain-xxyz.jpg")
      = ["https://a.example.com/p/q/r/abcde-ef.jpg",
         "https://media.example.org/wp-content/uploads/2024/12/original-photograph-of-a-mountain-xxyz.jpg"] ∧
    ("https://a.example.com/p/q/r/abcde-ef.jpg" : String).length = 40 ∧
    ("https://media.example.org/wp-content/uploads/2024/12/original-photograph-of-a-mountain-xxyz.jpg" : String).length = 95 ∧
    ("https://a.example.com/p/q/r/abcde-ef.jpg" : String) ≠
      "https://media.example.org/wp-content/uploads/2024/12/original-photograph-of-a-mountain-xxyz.jpg" := by
  refine ⟨rfl, rfl, rfl, ?_⟩
  decide

/-- **C4 amended.**  part_004's Filter/Ranker (`extractUrlFromAttribute`,
340-369) does order by pixel area descending with URL-length-descending
tie-break: its selection is comparator-least among all surviving
candidates, and on the Scenario-C metadata (two pixel-area-0 candidates of
lengths 40 and 95) it picks the 95-character one. -/
theorem rank_precedence_amended :
    (∀ (cands : List PixCand) (c d : PixCand), euaFilterRank cands = some c →
        d ∈ cands.filter (fun x => !euaDeny x.url) → pixLenLe c d = true) ∧
    extractUrlFromAttribute
        (some "https://a.example.com/p/q/r/abcde-ef.jpg https://media.example.org/wp-content/uploads/2024/12/original-photograph-of-a-mountain-xxyz.jpg")
      = some "https://media.example.org/wp-content/uploads/2024/12/original-photograph-of-a-mountain-xxyz.jpg" := by
  constructor
  · intro cands c d h hd
    simp only [euaFilterRank, euaSelect] at h
    split at h
    · exact absurd h (by simp)
    · refine sortLe_head_least pixLenLe_refl pixLenLe_trans ?_ h d hd
      intro a b
      have h2 := pixLenLe_total a b
      simp only [Bool.or_eq_true] at h2
      exact h2
  · rfl

/-- Witness for `rank_precedence_amended`: the Scenario-C candidate pair,
ranked by part_004's comparator. -/
theorem rank_precedence_amended_witness :
    euaFilterRank
        [⟨"https://a.example.com/p/q/r/abcde-ef.jpg", 0⟩,
         ⟨"https://media.example.org/wp-content/uploads/2024/12/original-photograph-of-a-mountain-xxyz.jpg", 0⟩]
      = some ⟨"https://media.example.org/wp-content/uploads/2024/12/original-photograph-of-a-mountain-xxyz.jpg", 0⟩ ∧
    pixLenLe
        ⟨"https://media.example.org/wp-content/uploads/2024/12/original-photograph-of-a-mountain-xxyz.jpg", 0⟩
        ⟨"https://a.example.com/p/q/r/abcde-ef.jpg", 0⟩ = true :=
  ⟨rfl,
   rank_precedence_amended.1
     [⟨"https://a.example.com/p/q/r/abcde-ef.jpg", 0⟩,
      ⟨"https://media.example.org/wp-content/uploads/2024/12/original-photograph-of-a-mountain-xxyz.jpg", 0⟩]
     ⟨"https://media.example.org/wp-content/uploads/2024/12/original-photograph-of-a-mountain-xxyz.jpg", 0⟩
     ⟨"https://a.example.com/p/q/r/abcde-ef.jpg", 0⟩ rfl (by decide)⟩

/-- A `$`-anchored rule that fires on no suffix leaves the string alone. -/
theorem stripSuffixMatch_id {p : List Char → Bool} {l : List Char}
    (h : anySuffix p l = false) : stripSuffixMatch p l = l := by
  induction l with
  | nil => rfl
  | cons c rest ih =>
    unfold anySuffix at h
    rcases Bool.or_eq_false_iff.mp h with ⟨h1, h2⟩
    unfold stripSuffixMatch
    rw [if_neg (by simp [h1])]
    rw [ih h2]

/-- A mid-URL rule that matches at no position leaves the string alone. -/
theorem replaceFirstMid_id {m : List Char → Option (List Char)} {l : List Char}
    (h : anyMid m l = false) : replaceFirstMid m l = l := by
  induction l with
  | nil => rfl
  | cons c rest ih =>
    unfold anyMid at h
    rcases Bool.or_eq_false_iff.mp h with ⟨h1, h2⟩
    unfold replaceFirstMid
    have hn : m (c :: rest) = none := Option.not_isSome_iff_eq_none.mp (by simp [h1])
    rw [hn, ih h2]

/-- A string with no sizing token is a fixed point of the normalizer. -/
theorem strip_id_of_no_token (s : String) (h : hasSizingToken s = false) :
    stripSizingParameters s = s := by
  simp only [hasSizingToken, Bool.or_eq_false_iff] at h
  obtain ⟨⟨⟨⟨hW, hS⟩, hH⟩, h4⟩, h5⟩ := h
  simp only [stripSizingParameters]
  rw [stripSuffixMatch_id hW, stripSuffixMatch_id hS, stripSuffixMatch_id hH,
    replaceFirstMid_id h4, replaceFirstMid_id h5]

/-- **C5 counterexample.**  `stripSizingParameters` is not idempotent: a
stacked sizing suffix (`…photo=s1600=s800`) loses only its last token per
application, because each `$`-anchored rule fires once. -/
theorem normalize_not_idempotent :
    stripSizingParameters (stripSizingParameters "https://lh3.example.com/photo=s1600=s800") ≠
      stripSizingParameters "https://lh3.example.com/photo=s1600=s800" := by
  decide

/-- **C5 amended.**  `normalize(normalize(u)) = normalize(u)` for every `u`
whose once-normalized form contains no residual sizing token (no trailing
`=wN…`/`=sN…`/`=hN…` suffix and no mid-URL `/wN-hN/` or `/sN/` segment);
inputs with stacked sizing tokens, such as the counterexample, violate
idempotence. -/
theorem normalize_idempotent_amended (u : String)
    (h : hasSizingToken (stripSizingParameters u) = false) :
    stripSizingParameters (stripSizingParameters u) = stripSizingParameters u :=
  strip_id_of_no_token _ h

/-! ### Lemmas for the scheme/host preservation analysis (C6) -/

/-- Every list is a prefix of itself extended on the right. -/
theorem listIsPre_append_self (p r : List Char) : listIsPre p (p ++ r) = true := by
  induction p with
  | nil => rfl
  | cons c t ih => simp [listIsPre, ih]

/-- `takeWhile` stops at a separator that fails the predicate. -/
theorem takeWhile_append_sep {p : Char → Bool} {s : Char} (hs : p s = false)
    (t x : List Char) : (t ++ s :: x).takeWhile p = t.takeWhile p := by
  induction t with
  | nil => simp [List.takeWhile_cons, hs]
  | cons c t' ih =>
    by_cases hc : p c
    · simp [List.takeWhile_cons, hc, ih]
    · simp [List.takeWhile_cons, hc]

/-- `dropWhile` keeps everything from a failing separator on. -/
theorem dropWhile_append_sep {p : Char → Bool} {s : Char} (hs : p s = false)
    (t x : List Char) : (t ++ s :: x).dropWhile p = t.dropWhile p ++ s :: x := by
  induction t with
  | nil => simp [List.dropWhile_cons, hs]
  | cons c t' ih =>
    by_cases hc : p c
    · simp [List.dropWhile_cons, hc, ih]
    · simp [List.dropWhile_cons, hc]

/-- A suffix accepted by `isEndW` starts with `=`. -/
theorem isEndW_head {c : Char} {t : List Char} (h : isEndW (c :: t) = true) : c = '=' := by
  cases t with
  | nil => simp [isEndW] at h
  | cons w r =>
    simp only [isEndW, Bool.and_eq_true, decide_eq_true_eq] at h
    tauto

/-- A suffix accepted by `isEndS` starts with `=`. -/
theorem isEndS_head {c : Char} {t : List Char} (h : isEndS (c :: t) = true) : c = '=' := by
  cases t with
  | nil => simp [isEndS] at h
  | cons s r =>
    simp only [isEndS, Bool.and_eq_true, decide_eq_true_eq] at h
    tauto

/-- A suffix accepted by `isEndH` starts with `=`. -/
theorem isEndH_head {c : Char} {t : List Char} (h : isEndH (c :: t) = true) : c = '=' := by
  cases t with
  | nil => simp [isEndH] at h
  | cons x r =>
    simp only [isEndH, Bool.and_eq_true, decide_eq_true_eq] at h
    tauto

/-- A `$`-anchored rule whose matches start with `=` leaves any `=`-free
prefix intact. -/
theorem stripSuffixMatch_append {p : List Char → Bool}
    (hp : ∀ (c : Char) (t : List Char), p (c :: t) = true → c = '=')
    (pre r : List Char) (hpre : ∀ c ∈ pre, c ≠ '=') :
    stripSuffixMatch p (pre ++ r) = pre ++ stripSuffixMatch p r := by
  induction pre with
  | nil => rfl
  | cons c pre' ih =>
    have hc : c ≠ '=' := hpre c (List.mem_cons_self c pre')
    show stripSuffixMatch p (c :: (pre' ++ r)) = c :: (pre' ++ stripSuffixMatch p r)
    unfold stripSuffixMatch
    rw [if_neg (fun habs => hc (hp c _ habs))]
    rw [ih (fun d hd => hpre d (List.mem_cons_of_mem c hd))]
    cases r <;> rfl

/-- `midWH` matches only at a slash. -/
theorem midWH_not_slash {c : Char} (h : c ≠ '/') (l : List Char) : midWH (c :: l) = none := by
  cases l with
  | nil => rfl
  | cons b r => simp [midWH, h]

/-- `midWH` needs a `w` after the slash. -/
theorem midWH_slash2 {b : Char} (h : b ≠ 'w') (l : List Char) : midWH ('/' :: b :: l) = none := by
  simp [midWH, h]

/-- `midS` matches only at a slash. -/
theorem midS_not_slash {c : Char} (h : c ≠ '/') (l : List Char) : midS (c :: l) = none := by
  cases l with
  | nil => rfl
  | cons b r => simp [midS, h]

/-- `midS` needs an `s` after the slash. -/
theorem midS_slash2 {b : Char} (h : b ≠ 's') (l : List Char) : midS ('/' :: b :: l) = none := by
  simp [midS, h]

/-- The first mid-URL rule cannot fire at the host position unless the host
itself has the `w\d+-h\d+` shape. -/
theorem midWH_host (H x : List Char) (hH : ∀ c ∈ H, c ≠ '/')
    (hs : hostShapeWH H = false) : midWH ('/' :: (H ++ '/' :: x)) = none := by
  cases H with
  | nil => exact midWH_slash2 (by decide) x
  | cons b r =>
    by_cases hb : b = 'w'
    · subst hb
      have h1 : (r ++ '/' :: x).takeWhile Char.isDigit = r.takeWhile Char.isDigit :=
        takeWhile_append_sep (by decide) r x
      have h2 : (r ++ '/' :: x).dropWhile Char.isDigit = r.dropWhile Char.isDigit ++ '/' :: x :=
        dropWhile_append_sep (by decide) r x
      show midWH ('/' :: 'w' :: (r ++ '/' :: x)) = none
      simp only [midWH, h1, h2]
      by_cases he : (r.takeWhile Char.isDigit).isEmpty
      · simp [he]
      · simp only [he, Bool.false_eq_true, if_false, if_neg]
        cases hdw : r.dropWhile Char.isDigit with
        | nil =>
          simp only [List.nil_append]
          cases x with
          | nil => simp
          | cons y x' => simp
        | cons c dt =>
          cases dt with
          | nil =>
            simp only [List.cons_append, List.nil_append]
            simp
          | cons d dt2 =>
            simp only [List.cons_append]
            by_cases hc : c = '-'
            · by_cases hd : d = 'h'
              · subst hc; subst hd
                have h3 : (dt2 ++ '/' :: x).takeWhile Char.isDigit = dt2.takeWhile Char.isDigit :=
                  takeWhile_append_sep (by decide) dt2 x
                have h4 : (dt2 ++ '/' :: x).dropWhile Char.isDigit =
                    dt2.dropWhile Char.isDigit ++ '/' :: x :=
                  dropWhile_append_sep (by decide) dt2 x
                simp only [h3, h4]
                by_cases he2 : (dt2.takeWhile Char.isDigit).isEmpty
                · simp [he2]
                · cases hdw2 : dt2.dropWhile Char.isDigit with
                  | nil =>
                    exfalso
                    have : hostShapeWH ('w' :: r) = true := by
                      simp only [hostShapeWH, hdw, hdw2]
                      simp [he, he2]
                    rw [this] at hs
                    exact absurd hs (by simp)
                  | cons e et =>
                    have he' : e ≠ '/' := by
                      apply hH
                      have h5 : e ∈ dt2.dropWhile Char.isDigit := by
                        rw [hdw2]; exact List.mem_cons_self e et
                      have h6 : e ∈ dt2 := (List.dropWhile_sublist _).subset h5
                      have h7 : e ∈ r.dropWhile Char.isDigit := by
                        rw [hdw]
                        exact List.mem_cons_of_mem _ (List.mem_cons_of_mem _ h6)
                      have h8 : e ∈ r := (List.dropWhile_sublist _).subset h7
                      exact List.mem_cons_of_mem _ h8
                    simp [he', he2]
              · simp [hd]
            · simp [hc]
    · exact midWH_slash2 hb _

/-- The second mid-URL rule cannot fire at the host position unless the
host itself has the `s\d+` shape. -/
theorem midS_host (H x : List Char) (hH : ∀ c ∈ H, c ≠ '/')
    (hs : hostShapeS H = false) : midS ('/' :: (H ++ '/' :: x)) = none := by
  cases H with
  | nil => exact midS_slash2 (by decide) x
  | cons b r =>
    by_cases hb : b = 's'
    · subst hb
      have h1 : (r ++ '/' :: x).takeWhile Char.isDigit = r.takeWhile Char.isDigit :=
        takeWhile_append_sep (by decide) r x
      have h2 : (r ++ '/' :: x).dropWhile Char.isDigit = r.dropWhile Char.isDigit ++ '/' :: x :=
        dropWhile_append_sep (by decide) r x
      show midS ('/' :: 's' :: (r ++ '/' :: x)) = none
      simp only [midS, h1, h2]
      by_cases he : (r.takeWhile Char.isDigit).isEmpty
      · simp [he]
      · cases hdw : r.dropWhile Char.isDigit with
        | nil =>
          exfalso
          have : hostShapeS ('s' :: r) = true := by
            simp only [hostShapeS, hdw]
            simp [he]
          rw [this] at hs
          exact absurd hs (by simp)
        | cons e et =>
          have he' : e ≠ '/' := by
            apply hH
            have h5 : e ∈ r.dropWhile Char.isDigit := by
              rw [hdw]; exact List.mem_cons_self e et
            exact List.mem_cons_of_mem _ ((List.dropWhile_sublist _).subset h5)
          simp [he, he']
    · exact midS_slash2 hb _

/-- Decompose a suffix of an append. -/
theorem sfx_append {p' a b : List Char} (h : p' <:+ (a ++ b)) :
    p' <:+ b ∨ ∃ a', a' <:+ a ∧ a' ≠ [] ∧ p' = a' ++ b := by
  induction a with
  | nil => left; simpa using h
  | cons c a' ih =>
    rcases h with ⟨t, ht⟩
    cases t with
    | nil =>
      right
      refine ⟨c :: a', List.suffix_refl _, by simp, ?_⟩
      simpa using ht
    | cons d t' =>
      rw [List.cons_append] at ht
      injection ht with h1 h2
      rcases ih ⟨t', h2⟩ with hb | ⟨a'', hsfx, hne, heq⟩
      · left; exact hb
      · right; exact ⟨a'', hsfx.trans (List.suffix_cons c a'), hne, heq⟩

/-- A nonempty suffix of a singleton is that singleton. -/
theorem sfx_single {a' : List Char} {c : Char} (h : a' <:+ [c]) (hne : a' ≠ []) : a' = [c] := by
  rcases h with ⟨t, ht⟩
  cases t with
  | nil => simpa using ht
  | cons u t' =>
    exfalso
    have hlen := congrArg List.length ht
    simp only [List.length_append, List.length_cons, List.length_nil] at hlen
    have : a' = [] := List.eq_nil_of_length_eq_zero (by omega)
    exact absurd this hne

/-- A mid-URL rule that matches nowhere strictly inside the
`scheme://host` prefix leaves that prefix intact. -/
theorem replaceFirstMid_append {m : List Char → Option (List Char)} (pre r : List Char)
    (h : ∀ p', p' <:+ pre → p' ≠ [] → m (p' ++ r) = none) :
    replaceFirstMid m (pre ++ r) = pre ++ replaceFirstMid m r := by
  induction pre with
  | nil => rfl
  | cons c pre' ih =>
    show replaceFirstMid m (c :: (pre' ++ r)) = c :: (pre' ++ replaceFirstMid m r)
    unfold replaceFirstMid
    have hm : m ((c :: pre') ++ r) = none := h (c :: pre') (List.suffix_refl _) (by simp)
    rw [List.cons_append] at hm
    rw [hm]
    rw [ih (fun p' hs hne => h p' (hs.trans (List.suffix_cons c pre')) hne)]
    cases r <;> rfl

/-- `replaceFirstMid` keeps a leading slash. -/
theorem replaceFirstMid_slash (m : List Char → Option (List Char)) (l : List Char) :
    ∃ l2, replaceFirstMid m ('/' :: l) = '/' :: l2 := by
  unfold replaceFirstMid
  cases h : m ('/' :: l) with
  | some after => exact ⟨after, rfl⟩
  | none => exact ⟨replaceFirstMid m l, rfl⟩

/-- No nonempty suffix of `scheme://host` can start a match of a mid-URL
rule, when the scheme and host are slash-free and the host does not have
the rule's own shape. -/
theorem mid_safe_zone {m : List Char → Option (List Char)} (S H r : List Char)
    (hS : ∀ c ∈ S, c ≠ '/') (hH : ∀ c ∈ H, c ≠ '/')
    (hnotslash : ∀ (c : Char) (l : List Char), c ≠ '/' → m (c :: l) = none)
    (hss : ∀ l : List Char, m ('/' :: '/' :: l) = none)
    (hhost : m ('/' :: (H ++ r)) = none) :
    ∀ p', p' <:+ (S ++ ':' :: '/' :: '/' :: H) → p' ≠ [] → m (p' ++ r) = none := by
  intro p' hsfx hne
  rcases sfx_append hsfx with h1 | ⟨S', hS', hne', rfl⟩
  · -- inside `://host`
    rcases @sfx_append p' [':'] _ h1 with h2 | ⟨a', ha', hnea', rfl⟩
    · rcases @sfx_append p' ['/'] _ h2 with h3 | ⟨a', ha', hnea', rfl⟩
      · rcases @sfx_append p' ['/'] _ h3 with h4 | ⟨a', ha', hnea', rfl⟩
        · -- inside the host
          cases p' with
          | nil => exact absurd rfl hne
          | cons e t =>
            have he : e ∈ H := h4.subset (List.mem_cons_self e t)
            exact hnotslash e _ (hH e he)
        · -- at the second slash: p' = '/' :: H
          rw [sfx_single ha' hnea']
          exact hhost
      · -- at the first slash: p' = '/' :: '/' :: H
        rw [sfx_single ha' hnea']
        exact hss _
    · -- at the colon
      rw [sfx_single ha' hnea']
      exact hnotslash ':' _ (by decide)
  · -- starting inside the scheme
    cases S' with
    | nil => exact absurd rfl hne'
    | cons e t =>
      have he : e ∈ S := hS'.subset (List.mem_cons_self e t)
      exact hnotslash e _ (hS e he)

/-- The host of an absolute URL: the segment between the first `://` and
the next `/` (observation function for stating C6). -/
def schemeSplit : List Char → Option (List Char × List Char)
  | [] => none
  | c :: rest =>
      if listIsPre [':', '/', '/'] (c :: rest) then some ([], (c :: rest).drop 3)
      else (schemeSplit rest).map (fun p => (c :: p.1, p.2))

/-- The scheme of an absolute URL (before the first `://`). -/
def urlScheme (u : String) : Option String :=
  (schemeSplit u.data).map (fun p => (⟨p.1⟩ : String))

/-- The host of an absolute URL (between `://` and the next `/`). -/
def urlHost (u : String) : Option String :=
  (schemeSplit u.data).map (fun p => (⟨p.2.takeWhile (fun c => c ≠ '/')⟩ : String))

/-- **C6 counterexample.**  The mid-URL rule `/s\d+/` can swallow a host of
shape `s<digits>`: normalizing `https://s1/a.jpg` yields
`https://a.jpg`, changing the host from `s1` to `a.jpg`. -/
theorem normalize_changes_host_counterexample :
    stripSizingParameters "https://s1/a.jpg" = "https://a.jpg" ∧
    urlHost "https://s1/a.jpg" = some "s1" ∧
    urlHost (stripSizingParameters "https://s1/a.jpg") = some "a.jpg" ∧
    urlHost "https://s1/a.jpg" ≠ urlHost (stripSizingParameters "https://s1/a.jpg") := by
  refine ⟨rfl, rfl, rfl, ?_⟩
  decide

/-- **C6 amended.**  For every URL `scheme://host/rest` whose scheme and
host are free of `=` and `/`, and whose host is not itself of the sizing
shapes `w\d+-h\d+` or `s\d+`, the normalizer preserves the scheme and the
host: its output still starts with the very same `scheme://host/`.  (The
counterexample shows the host-shape proviso is necessary.) -/
theorem normalize_preserves_scheme_host_amended (S H R : List Char)
    (hS : ∀ c ∈ S, c ≠ '=' ∧ c ≠ '/')
    (hH : ∀ c ∈ H, c ≠ '=' ∧ c ≠ '/')
    (hWH : hostShapeWH H = false) (hSs : hostShapeS H = false) :
    listIsPre (S ++ ':' :: '/' :: '/' :: (H ++ ['/']))
      (stripSizingParameters ⟨S ++ ':' :: '/' :: '/' :: (H ++ '/' :: R)⟩).data = true := by
  have hS' : ∀ c ∈ S, c ≠ '/' := fun c hc => (hS c hc).2
  have hH' : ∀ c ∈ H, c ≠ '/' := fun c hc => (hH c hc).2
  have hpreEq : ∀ c ∈ (S ++ ':' :: '/' :: '/' :: (H ++ ['/'])), c ≠ '=' := by
    intro c hc heq
    subst heq
    simp only [List.mem_append, List.mem_cons, List.mem_singleton, List.not_mem_nil,
      or_false] at hc
    rcases hc with h | h | h | h | h | h
    · exact (hS _ h).1 rfl
    · exact absurd h (by decide)
    · exact absurd h (by decide)
    · exact absurd h (by decide)
    · exact (hH _ h).1 rfl
    · exact absurd h (by decide)
  have hassoc : S ++ ':' :: '/' :: '/' :: (H ++ '/' :: R)
      = (S ++ ':' :: '/' :: '/' :: (H ++ ['/'])) ++ R := by
    simp [List.append_assoc]
  have step123 : stripSuffixMatch isEndH (stripSuffixMatch isEndS (stripSuffixMatch isEndW
        ((S ++ ':' :: '/' :: '/' :: (H ++ ['/'])) ++ R)))
      = (S ++ ':' :: '/' :: '/' :: (H ++ ['/'])) ++
        stripSuffixMatch isEndH (stripSuffixMatch isEndS (stripSuffixMatch isEndW R)) := by
    rw [stripSuffixMatch_append (fun c t h => isEndW_head h) _ R hpreEq]
    rw [stripSuffixMatch_append (fun c t h => isEndS_head h) _ _ hpreEq]
    rw [stripSuffixMatch_append (fun c t h => isEndH_head h) _ _ hpreEq]
  have hA : ∀ x : List Char, (S ++ ':' :: '/' :: '/' :: (H ++ ['/'])) ++ x
      = (S ++ ':' :: '/' :: '/' :: H) ++ '/' :: x := by
    intro x
    simp [List.append_assoc]
  obtain ⟨R4, h4⟩ := replaceFirstMid_slash midWH
    (stripSuffixMatch isEndH (stripSuffixMatch isEndS (stripSuffixMatch isEndW R)))
  obtain ⟨R5, h5⟩ := replaceFirstMid_slash midS R4
  have m1 := @replaceFirstMid_append midWH (S ++ ':' :: '/' :: '/' :: H)
      ('/' :: stripSuffixMatch isEndH (stripSuffixMatch isEndS (stripSuffixMatch isEndW R)))
      (mid_safe_zone S H _ hS' hH'
        (fun c l hc => midWH_not_slash hc l)
        (fun l => midWH_slash2 (by decide) l)
        (midWH_host H _ hH' hWH))
  have m2 := @replaceFirstMid_append midS (S ++ ':' :: '/' :: '/' :: H)
      ('/' :: R4)
      (mid_safe_zone S H _ hS' hH'
        (fun c l hc => midS_not_slash hc l)
        (fun l => midS_slash2 (by decide) l)
        (midS_host H _ hH' hSs))
  have hdata : (stripSizingParameters ⟨S ++ ':' :: '/' :: '/' :: (H ++ '/' :: R)⟩).data
      = (S ++ ':' :: '/' :: '/' :: H) ++ '/' :: R5 := by
    show replaceFirstMid midS (replaceFirstMid midWH (stripSuffixMatch isEndH
        (stripSuffixMatch isEndS (stripSuffixMatch isEndW
          (S ++ ':' :: '/' :: '/' :: (H ++ '/' :: R))))))
      = (S ++ ':' :: '/' :: '/' :: H) ++ '/' :: R5
    rw [hassoc, step123, hA, m1, h4, m2, h5]
  rw [hdata]
  have : (S ++ ':' :: '/' :: '/' :: H) ++ '/' :: R5
      = (S ++ ':' :: '/' :: '/' :: (H ++ ['/'])) ++ R5 := (hA R5).symm
  rw [this]
  exact listIsPre_append_self _ R5

/-- Witness for `normalize_preserves_scheme_host_amended`: normalizing
`https://img.example.com/photo=w400-h300` keeps `https://img.example.com/`
as a prefix. -/
theorem normalize_preserves_scheme_host_amended_witness :
    listIsPre ("https".data ++ ':' :: '/' :: '/' :: ("img.example.com".data ++ ['/']))
      (stripSizingParameters
        ⟨"https".data ++ ':' :: '/' :: '/' :: ("img.example.com".data ++ '/' :: "photo=w400-h300".data)⟩).data
      = true :=
  normalize_preserves_scheme_host_amended "https".data "img.example.com".data
    "photo=w400-h300".data (by decide) (by decide) rfl rfl

/-- Witness for `normalize_idempotent_amended`: the spec's Scenario-F URL. -/
theorem normalize_idempotent_amended_witness :
    hasSizingToken (stripSizingParameters "https://img.example.com/photo=w400-h300") = false ∧
    stripSizingParameters (stripSizingParameters "https://img.example.com/photo=w400-h300")
      = stripSizingParameters "https://img.example.com/photo=w400-h300" :=
  ⟨rfl, normalize_idempotent_amended "https://img.example.com/photo=w400-h300" rfl⟩

/-- **C7.** Scanner totality: `extractOriginalUrls` is a total function —
null and empty inputs give the empty sequence, malformed payloads (broken
escapes, stray percent signs, truncated URLs) give the empty sequence
rather than an error — and in `getBestUrl`, where the one throwing builtin
(`decodeURIComponent`) is called, the catch at content.js 367-371 keeps
every outcome a returned value. -/
theorem scanner_totality :
    extractOriginalUrls none = [] ∧
    extractOriginalUrls (some "") = [] ∧
    extractOriginalUrls (some "not a url %%% \\uZZ broken \\x1 http:/almost https://x") = [] ∧
    (∀ m : Option String, ∃ r : Option String, getBestUrl m = Except.ok r) := by
  refine ⟨rfl, rfl, rfl, ?_⟩
  intro m
  cases m with
  | none => exact ⟨none, rfl⟩
  | some s =>
    by_cases hs : s = ""
    · exact ⟨none, by simp [getBestUrl, hs]⟩
    · show ∃ r, getBestUrl (some s) = Except.ok r
      have hred : getBestUrl (some s) =
          match gbFilterRank (findUrlsGB (decodeEscapes4 s)) with
          | none => Except.ok none
          | some best =>
              match decodeURIComponentM best with
              | .ok d => Except.ok (some d)
              | .error _ => Except.ok (some best) := by
        simp [getBestUrl, hs]
      rw [hred]
      cases gbFilterRank (findUrlsGB (decodeEscapes4 s)) with
      | none => exact ⟨none, rfl⟩
      | some best =>
        show ∃ r, (match decodeURIComponentM best with
          | .ok d => Except.ok (some d)
          | .error _ => Except.ok (some best)) = Except.ok r
        cases decodeURIComponentM best with
        | ok d => exact ⟨some d, rfl⟩
        | error e => exact ⟨some best, rfl⟩

/-- **C9 counterexample.**  `waitForHighResUrl` (content.js 121-190) tests
the deadline before scanning: on the first frame past `maxWait` it resolves
null without scanning, even though the document at that instant holds a
candidate its scan would accept. -/
theorem deadline_no_final_scan_counterexample :
    waitForHighResUrl 5000
        [(5001, ⟨[⟨some "https://cdn.example.com/huge-photo-original.jpg", none, 2000, 2000⟩],
          [], []⟩)]
      = none ∧
    scanPreviewDom
        ⟨[⟨some "https://cdn.example.com/huge-photo-original.jpg", none, 2000, 2000⟩], [], []⟩
      = some "https://cdn.example.com/huge-photo-original.jpg" :=
  ⟨rfl, rfl⟩

/-- **C9 amended.**  The mutation-observer engine's safety timeout
(content.js 450-469) does perform one final synchronous scan of the
watched attributes at expiry: if neither the initial check nor the
observer captured anything but the attributes at expiry yield a URL, the
session ends with that URL rather than none. -/
theorem deadline_final_scan_amended (a0 : List (String × String)) (muts : List MutationRec)
    (aE : List (String × String)) (u : String)
    (h0 : step1Check a0 = none) (h1 : observerCapture muts = none)
    (h2 : finalCheck aE = some u) :
    runContextMenuCapture a0 muts aE = some u := by
  unfold runContextMenuCapture
  rw [h0, h1, h2]

/-- Witness for `deadline_final_scan_amended`: the lazily-populated
`data-i` payload appears only at expiry and is still captured. -/
theorem deadline_final_scan_amended_witness :
    finalCheck [("data-i", "x[\"https://cdn.example.com/gallery/big-photo.jpg\",800,600]")]
      = some "https://cdn.example.com/gallery/big-photo.jpg" ∧
    runContextMenuCapture [] []
        [("data-i", "x[\"https://cdn.example.com/gallery/big-photo.jpg\",800,600]")]
      = some "https://cdn.example.com/gallery/big-photo.jpg" :=
  ⟨rfl,
   deadline_final_scan_amended [] []
     [("data-i", "x[\"https://cdn.example.com/gallery/big-photo.jpg\",800,600]")]
     "https://cdn.example.com/gallery/big-photo.jpg" rfl rfl rfl⟩

/-- Witness for `captured_one_shot`: a captured sized URL is answered
stripped, cleared, and the follow-up request takes the extraction path. -/
theorem captured_one_shot_witness :
    (handleGetOriginal none ⟨some "https://lh3.example.com/pic=w200-h150", true⟩).1
      = some (stripSizingParameters "https://lh3.example.com/pic=w200-h150") ∧
    ((handleGetOriginal none ⟨some "https://lh3.example.com/pic=w200-h150", true⟩).2).captured
      = none ∧
    (handleGetOriginal (some "https://other.example.com/b.jpg")
        (handleGetOriginal none ⟨some "https://lh3.example.com/pic=w200-h150", true⟩).2).1
      = extractionRespond (some "https://other.example.com/b.jpg") :=
  captured_one_shot ⟨some "https://lh3.example.com/pic=w200-h150", true⟩
    "https://lh3.example.com/pic=w200-h150" none (some "https://other.example.com/b.jpg") rfl

end HiRes
